import Mathlib

/-!
Verification of the clay ncurses terminal render backend
(src/renderers/ncurses/clay_renderer_ncurses.c).

The C source is shallowly embedded below.  Modelling conventions:

* C `float` pixel coordinates are modelled as `Int` pixel units.  Every
  operation the renderer performs on them (truncating division by the cell
  size constants 8.0f and 16.0f, min/max, addition, subtraction) is exact on
  integer-valued floats, so the embedding is faithful on that domain.
  A C `(int)` cast of a nonnegative-or-negative quotient truncates toward
  zero, which is `Int.tdiv`.
* Color channels of `Clay_Color` (C floats holding values 0..255) are
  modelled as `Nat`.  The comparisons (`> 128`) and the 6-level bucketing
  `(int)((c / 255.0f) * 5.0f)` are modelled with exact rational arithmetic;
  on the integer channel domain IEEE single rounding produces the same
  bucket values, so the embedding agrees with the compiled code there.
* The terminal (ncurses) is modelled as an unbounded grid of cells, each
  holding a glyph (codepoint) and a color-pair id: this is the
  glyph-plus-color-pair portion (`A_CHARTEXT | A_COLOR`) that the renderer
  reads back and compares.  `init_pair` registrations are recorded by the
  color-pair cache itself, so `pair_content` is answered from the cache;
  the default pair 0 answers (-1, -1) because the renderer calls
  `use_default_colors`.
* The C library functions the renderer calls for text (`mbtowc`,
  `mbstowcs` under a UTF-8 locale, and `wcwidth`) are not part of this
  repository; they are modelled below (`utf8DecodeFirst`, `mbstowcsModel`,
  `wcwidth`) following their documented behaviour: strict UTF-8 decoding
  rejecting overlongs, surrogates and codepoints above 0x10FFFF, and a
  Kuhn-style width table (0 for combining, 2 for wide East-Asian, -1 for
  control, 1 otherwise).
* Each paint routine carries a write counter: one unit per terminal cell
  written (`mvaddch`, `mvprintw` of a single glyph, and `mvaddnwstr`
  counting one per glyph written).  This instruments the "cell writes"
  the specification's dirty-diff properties speak about.
-/

/-- A 24-bit RGBA color as received from the layout engine.  The C struct
holds floats constrained to 0..255; channels are modelled as `Nat`. -/
structure Clay_Color where
  r : Nat
  g : Nat
  b : Nat
  a : Nat
deriving DecidableEq, Repr

/-- ncurses standard color constants. -/
def COLOR_BLACK : Int := 0

def COLOR_RED : Int := 1

def COLOR_GREEN : Int := 2

def COLOR_YELLOW : Int := 3

def COLOR_BLUE : Int := 4

def COLOR_MAGENTA : Int := 5

def COLOR_CYAN : Int := 6

def COLOR_WHITE : Int := 7

/-- Translation of `Clay_Ncurses_MatchColor` (clay_renderer_ncurses.c,
lines 422-463).  `colors` is the terminal's advertised `COLORS` count.
Below 256 colors each channel is thresholded with `> 128` and the three
bits are mapped through the cascade of ifs; otherwise each channel is
bucketed by `(int)((c / 255.0f) * 5.0f)` (exact rational arithmetic here;
the value is nonnegative so the C truncation is the floor) and the 6x6x6
cube index `16 + 36*r + 6*g + b` is returned. -/
def Clay_Ncurses_MatchColor (colors : Int) (color : Clay_Color) : Int :=
  if colors < 256 then
    let r := 128 < color.r
    let g := 128 < color.g
    let b := 128 < color.b
    if r ∧ g ∧ b then COLOR_WHITE
    else if ¬r ∧ ¬g ∧ ¬b then COLOR_BLACK
    else if r ∧ g then COLOR_YELLOW
    else if r ∧ b then COLOR_MAGENTA
    else if g ∧ b then COLOR_CYAN
    else if r then COLOR_RED
    else if g then COLOR_GREEN
    else if b then COLOR_BLUE
    else COLOR_WHITE
  else
    let r : Int := ⌊(color.r : ℚ) / 255 * 5⌋
    let g : Int := ⌊(color.g : ℚ) / 255 * 5⌋
    let b : Int := ⌊(color.b : ℚ) / 255 * 5⌋
    16 + 36 * r + 6 * g + b

/-- Translation of `Clay_Ncurses_GetColorId` (line 465): it simply calls
`Clay_Ncurses_MatchColor`. -/
def Clay_Ncurses_GetColorId (colors : Int) (color : Clay_Color) : Int :=
  Clay_Ncurses_MatchColor colors color

/-- One entry of the color pair cache (C struct at lines 37-41). -/
structure ColorPairEntry where
  fg : Int
  bg : Int
  pairId : Int
deriving DecidableEq, Repr

/-- C macro MAX_COLOR_PAIRS_CACHE (line 36). -/
def MAX_COLOR_PAIRS_CACHE : Nat := 1024

/-- Translation of `Clay_Ncurses_GetColorPair` (lines 469-493).  The global
cache array together with `_colorPairCacheSize` is modelled as the list of
its live entries, passed in and returned explicitly.  The linear scan is
`List.find?`; on a miss with the cache full the default pair id 0 is
returned and nothing changes; on a miss with room the pair id
`size + 1` is registered (the model of `init_pair` is the cache entry
itself) and appended. -/
def Clay_Ncurses_GetColorPair (cache : List ColorPairEntry) (fg bg : Int) :
    Int × List ColorPairEntry :=
  match cache.find? (fun e => e.fg == fg && e.bg == bg) with
  | some e => (e.pairId, cache)
  | none =>
    if MAX_COLOR_PAIRS_CACHE ≤ cache.length then
      (0, cache)
    else
      let newId : Int := (cache.length : Int) + 1
      (newId, cache ++ [⟨fg, bg, newId⟩])

/-- Model of the ncurses `pair_content` query for pairs registered through
`Clay_Ncurses_GetColorPair`: every `init_pair(newId, fg, bg)` call of the C
code corresponds exactly to the cache entry appended beside it, so the
terminal's pair table is the cache.  Pair 0 (and any id never registered)
answers the default colors (-1, -1) installed by `use_default_colors`. -/
def Clay_Ncurses_PairContent (cache : List ColorPairEntry) (p : Int) : Int × Int :=
  match cache.find? (fun e => e.pairId == p) with
  | some e => (e.fg, e.bg)
  | none => (-1, -1)

/-- Folding a list of (fg, bg) requests through the pair cache, keeping only
the evolving cache.  Used to state lifetime-stability of assigned ids. -/
def applyPairRequests (cache : List ColorPairEntry) (reqs : List (Int × Int)) :
    List ColorPairEntry :=
  reqs.foldl (fun c r => (Clay_Ncurses_GetColorPair c r.1 r.2).2) cache

/-- A bounding box in abstract pixel units (C `Clay_BoundingBox`, floats;
modelled as integer pixel units, on which all renderer arithmetic is
exact). -/
structure Clay_BoundingBox where
  x : Int
  y : Int
  width : Int
  height : Int
deriving DecidableEq, Repr

/-- C macro CLAY_NCURSES_CELL_WIDTH (8.0f). -/
def CLAY_NCURSES_CELL_WIDTH : Int := 8

/-- C macro CLAY_NCURSES_CELL_HEIGHT (16.0f). -/
def CLAY_NCURSES_CELL_HEIGHT : Int := 16

/-- Pixel x coordinate to cell column: `(int)(v / CLAY_NCURSES_CELL_WIDTH)`,
a truncating (toward zero) division. -/
def pxToCellX (v : Int) : Int := Int.tdiv v CLAY_NCURSES_CELL_WIDTH

/-- Pixel y coordinate to cell row: `(int)(v / CLAY_NCURSES_CELL_HEIGHT)`. -/
def pxToCellY (v : Int) : Int := Int.tdiv v CLAY_NCURSES_CELL_HEIGHT

/-- C macro MAX_SCISSOR_STACK_DEPTH (line 30). -/
def MAX_SCISSOR_STACK_DEPTH : Int := 16

/-- The scissor (clip) stack state: the global array `_scissorStack`
(modelled as a total map from indices to boxes; the C code only ever reads
and writes indices it has itself written, see the C10 bounds theorem) and
the global `int _scissorStackIndex`. -/
structure ScissorState where
  stack : Int → Clay_BoundingBox
  index : Int

/-- Translation of the CLAY_RENDER_COMMAND_TYPE_SCISSOR_START case
(lines 362-377): if the stack is not at capacity, intersect the incoming
box with the current top and store the result one slot higher; otherwise
do nothing. -/
def scissorPush (st : ScissorState) (next : Clay_BoundingBox) : ScissorState :=
  if st.index < MAX_SCISSOR_STACK_DEPTH - 1 then
    let current := st.stack st.index
    let nX := max next.x current.x
    let nY := max next.y current.y
    let nR := min (next.x + next.width) (current.x + current.width)
    let nB := min (next.y + next.height) (current.y + current.height)
    { stack := fun i => if i = st.index + 1 then ⟨nX, nY, nR - nX, nB - nY⟩ else st.stack i,
      index := st.index + 1 }
  else st

/-- Translation of the CLAY_RENDER_COMMAND_TYPE_SCISSOR_END case
(lines 378-383): pop when the index is positive, otherwise do nothing. -/
def scissorPop (st : ScissorState) : ScissorState :=
  if 0 < st.index then { st with index := st.index - 1 } else st

/-- A clip-stack operation, for stating the stack-discipline property. -/
inductive ClipOp where
  | push (b : Clay_BoundingBox)
  | pop
deriving Repr

/-- Apply one clip-stack operation. -/
def clipApply (st : ScissorState) : ClipOp → ScissorState
  | .push b => scissorPush st b
  | .pop => scissorPop st

/-- Apply a sequence of clip-stack operations in order. -/
def clipApplySeq (st : ScissorState) (ops : List ClipOp) : ScissorState :=
  ops.foldl clipApply st

/-- The clip region currently in effect: the top of the stack. -/
def activeClip (st : ScissorState) : Clay_BoundingBox :=
  st.stack st.index

/-- Translation of `Clay_Ncurses_IntersectScissor` (lines 395-420).  The
current clip (in pixel units, as stored on the stack) is converted to cell
coordinates by truncating division, intersected with the candidate cell
rectangle, and the result is returned only when both extents are
positive.  The C out-parameters and boolean are an `Option`. -/
def Clay_Ncurses_IntersectScissor (clip : Clay_BoundingBox) (x y w h : Int) :
    Option (Int × Int × Int × Int) :=
  let cx := pxToCellX clip.x
  let cy := pxToCellY clip.y
  let cw := pxToCellX clip.width
  let ch := pxToCellY clip.height
  let ix := max x cx
  let iy := max y cy
  let right := min (x + w) (cx + cw)
  let bottom := min (y + h) (cy + ch)
  let iw := right - ix
  let ih := bottom - iy
  if iw ≤ 0 ∨ ih ≤ 0 then none else some (ix, iy, iw, ih)

/-- Membership of a cell (column p, row q) in a cell-space rectangle, used
to state that the clipped rectangle is the exact mathematical
intersection. -/
def cellInBox (x y w h p q : Int) : Prop :=
  x ≤ p ∧ p < x + w ∧ y ≤ q ∧ q < y + h

/-- A UTF-8 continuation byte, 0x80..0xBF. -/
def utf8Cont (b : Nat) : Prop := 128 ≤ b ∧ b < 192

instance (b : Nat) : Decidable (utf8Cont b) := by
  unfold utf8Cont; infer_instance

/-- Model of one `mbtowc` call in a UTF-8 locale, applied to the remaining
byte list (this C library routine is not part of the repository): decode
the first codepoint, returning it with the number of bytes consumed, or
`none` on a malformed, overlong, surrogate, out-of-range or truncated
sequence. -/
def utf8DecodeFirst : List Nat → Option (Nat × Nat)
  | [] => none
  | b0 :: rest =>
    if b0 < 128 then some (b0, 1)
    else if 194 ≤ b0 ∧ b0 ≤ 223 then
      match rest with
      | b1 :: _ =>
        if utf8Cont b1 then some ((b0 - 192) * 64 + (b1 - 128), 2) else none
      | [] => none
    else if 224 ≤ b0 ∧ b0 ≤ 239 then
      match rest with
      | b1 :: b2 :: _ =>
        if utf8Cont b1 ∧ utf8Cont b2 then
          let cp := (b0 - 224) * 4096 + (b1 - 128) * 64 + (b2 - 128)
          if cp < 2048 ∨ (55296 ≤ cp ∧ cp ≤ 57343) then none else some (cp, 3)
        else none
      | _ => none
    else if 240 ≤ b0 ∧ b0 ≤ 244 then
      match rest with
      | b1 :: b2 :: b3 :: _ =>
        if utf8Cont b1 ∧ utf8Cont b2 ∧ utf8Cont b3 then
          let cp := (b0 - 240) * 262144 + (b1 - 128) * 4096 + (b2 - 128) * 64 + (b3 - 128)
          if cp < 65536 ∨ 1114111 < cp then none else some (cp, 4)
        else none
      | _ => none
    else none

/-- Combining / zero-width codepoints recognised by the modelled
`wcwidth` (the ranges relevant to terminal text: combining diacriticals,
combining marks for symbols, zero-width spaces and joiners, variation
selectors). -/
def wcwidthCombining (cp : Nat) : Prop :=
  (768 ≤ cp ∧ cp ≤ 879) ∨ (8400 ≤ cp ∧ cp ≤ 8447) ∨
  (8203 ≤ cp ∧ cp ≤ 8207) ∨ (65024 ≤ cp ∧ cp ≤ 65039) ∨ cp = 65279

instance (cp : Nat) : Decidable (wcwidthCombining cp) := by
  unfold wcwidthCombining; infer_instance

/-- Wide (two-column) codepoints recognised by the modelled `wcwidth`:
Hangul Jamo, CJK and East-Asian blocks, Hangul syllables, CJK
compatibility, vertical/compatibility forms, fullwidth forms, and the
supplementary ideographic planes. -/
def wcwidthWide (cp : Nat) : Prop :=
  (4352 ≤ cp ∧ cp ≤ 4447) ∨ (11904 ≤ cp ∧ cp ≤ 42191) ∨
  (44032 ≤ cp ∧ cp ≤ 55203) ∨ (63744 ≤ cp ∧ cp ≤ 64255) ∨
  (65040 ≤ cp ∧ cp ≤ 65135) ∨ (65280 ≤ cp ∧ cp ≤ 65376) ∨
  (65504 ≤ cp ∧ cp ≤ 65510) ∨ (131072 ≤ cp ∧ cp ≤ 262141)

instance (cp : Nat) : Decidable (wcwidthWide cp) := by
  unfold wcwidthWide; infer_instance

/-- Model of the C library `wcwidth` (not part of the repository),
following the standard Kuhn-style implementation: 0 for the null wide
character, -1 for other control characters, 0 for zero-width/combining
codepoints, 2 for wide East-Asian codepoints, 1 otherwise. -/
def wcwidth (cp : Nat) : Int :=
  if cp = 0 then 0
  else if cp < 32 ∨ (127 ≤ cp ∧ cp < 160) then -1
  else if wcwidthCombining cp then 0
  else if wcwidthWide cp then 2
  else 1

/-- The number of cells a decoded codepoint advances the measurement
loop: `wcwidth` clamped below at zero (the C code adds the width only
when it is positive). -/
def glyphAdvance (cp : Nat) : Int :=
  if wcwidth cp < 0 then 0 else wcwidth cp

theorem utf8DecodeFirst_len_pos :
    ∀ {bs : List Nat} {cp n : Nat}, utf8DecodeFirst bs = some (cp, n) → 1 ≤ n := by
  intro bs cp n h
  unfold utf8DecodeFirst at h
  repeat' split at h
  all_goals simp_all
  all_goals omega

/-- Translation of `Clay_Ncurses_MeasureStringWidth` (lines 511-536): walk
the byte slice with `mbtowc`; a malformed or null result advances one byte
and adds nothing; a decoded codepoint advances by its byte count and adds
its display width when positive. -/
def Clay_Ncurses_MeasureStringWidth : List Nat → Nat
  | [] => 0
  | b :: rest =>
    match h : utf8DecodeFirst (b :: rest) with
    | none => Clay_Ncurses_MeasureStringWidth rest
    | some (cp, n) =>
      if cp = 0 then Clay_Ncurses_MeasureStringWidth rest
      else (glyphAdvance cp).toNat + Clay_Ncurses_MeasureStringWidth ((b :: rest).drop n)
termination_by bs => bs.length
decreasing_by
  · simp
  · simp
  · have hn := utf8DecodeFirst_len_pos h
    simp only [List.length_drop, List.length_cons]
    omega

/-- The token sequence the measurement loop walks: `some cp` for each
decoded codepoint, `none` for each byte skipped because it was malformed
(or the terminating null, which mbtowc reports as 0 and the loop likewise
skips as a single byte). -/
def utf8Codepoints : List Nat → List (Option Nat)
  | [] => []
  | b :: rest =>
    match h : utf8DecodeFirst (b :: rest) with
    | none => none :: utf8Codepoints rest
    | some (cp, n) =>
      if cp = 0 then none :: utf8Codepoints rest
      else some cp :: utf8Codepoints ((b :: rest).drop n)
termination_by bs => bs.length
decreasing_by
  · simp
  · simp
  · have hn := utf8DecodeFirst_len_pos h
    simp only [List.length_drop, List.length_cons]
    omega

/-- The column contribution of one token of the measurement loop: zero for
a skipped byte, the clamped display width for a decoded codepoint. -/
def glyphContribution (t : Option Nat) : Nat :=
  match t with
  | none => 0
  | some cp => (glyphAdvance cp).toNat

/-- Model of the C library `mbstowcs` on the null-terminated copy of the
text slice (lines 184-194): decode UTF-8 codepoints up to the first null
byte; fail (the C call returns (size_t)-1, checked as `wlen != -1`) if any
sequence before that is malformed. -/
def mbstowcsModel : List Nat → Option (List Nat)
  | [] => some []
  | b :: rest =>
    match h : utf8DecodeFirst (b :: rest) with
    | none => none
    | some (cp, n) =>
      if cp = 0 then some []
      else (mbstowcsModel ((b :: rest).drop n)).map (fun ws => cp :: ws)
termination_by bs => bs.length
decreasing_by
  · have hn := utf8DecodeFirst_len_pos h
    simp only [List.length_drop, List.length_cons]
    omega

/-- Translation of the second clipping loop of the TEXT command handler
(lines 211-229), the loop that actually determines what is printed.  It
walks the decoded codepoints accumulating the column position `col`; a
codepoint whose start column lies in `[skipCols, skipCols + takeCols)` is
taken (recording the first such index and counting), and the loop breaks
once the column position reaches the right edge.  Arguments `k`, `col`,
`ps`, `pl` are the loop variables (`ps = none` is C's `printStart == -1`). -/
def clipRun (skipCols takeCols : Int) :
    List Nat → Nat → Int → Option Nat → Nat → Option Nat × Nat
  | [], _, _, ps, pl => (ps, pl)
  | c :: rest, k, col, ps, pl =>
    let cw := glyphAdvance c
    let sel := skipCols ≤ col ∧ col < skipCols + takeCols
    let ps' := if sel then some (ps.getD k) else ps
    let pl' := if sel then pl + 1 else pl
    let col' := col + cw
    if skipCols + takeCols ≤ col' then (ps', pl')
    else clipRun skipCols takeCols rest (k + 1) col' ps' pl'

/-- The clipped run selected by the TEXT handler: the pair
(printStart, printLen), or `none` when nothing qualifies (C's
`printStart == -1`, in which case nothing is drawn). -/
def Clay_Ncurses_ClipToWindow (cps : List Nat) (skipCols takeCols : Int) :
    Option (Nat × Nat) :=
  match clipRun skipCols takeCols cps 0 0 none 0 with
  | (some s, l) => some (s, l)
  | (none, _) => none

/-- The column at which the j-th codepoint of a decoded text starts, i.e.
the sum of the clamped display widths of the codepoints before it. -/
def startColumn : List Nat → Nat → Int
  | _, 0 => 0
  | [], _ + 1 => 0
  | c :: rest, j + 1 => glyphAdvance c + startColumn rest j

/-- Whether the clipping result selects the j-th codepoint. -/
def clipSelected (res : Option (Nat × Nat)) (j : Nat) : Prop :=
  match res with
  | none => False
  | some sl => sl.1 ≤ j ∧ j < sl.1 + sl.2

/-- One cell of the terminal screen as the renderer observes it: the glyph
(codepoint) and the color-pair id, i.e. the `A_CHARTEXT` and `A_COLOR`
portions that the dirty checks compare. -/
structure ScreenCell where
  glyph : Nat
  pair : Int
deriving DecidableEq, Repr

/-- The terminal screen, modelled as an unbounded grid: row, column to
cell. -/
def TerminalScreen : Type := Int → Int → ScreenCell

/-- Writing one cell of the screen. -/
def screenPut (s : TerminalScreen) (row col : Int) (c : ScreenCell) : TerminalScreen :=
  fun r q => if r = row ∧ q = col then c else s r q

/-- The per-corner rounding flags of a border command (the C code tests
`cornerRadius.corner > 0` for each corner; the flags are those tests). -/
structure Clay_BorderCorners where
  topLeft : Bool
  topRight : Bool
  bottomLeft : Bool
  bottomRight : Bool
deriving DecidableEq, Repr

/-- A render command, the tagged variants the switch at lines 140-385
dispatches on.  Text carries its byte slice; `other` stands for any
command type handled by the `default: break` arm. -/
inductive Clay_RenderCommand where
  | rectangle (box : Clay_BoundingBox) (backgroundColor : Clay_Color)
  | text (box : Clay_BoundingBox) (chars : List Nat) (textColor : Clay_Color)
  | border (box : Clay_BoundingBox) (color : Clay_Color) (corners : Clay_BorderCorners)
  | scissorStart (box : Clay_BoundingBox)
  | scissorEnd (box : Clay_BoundingBox)
  | other (box : Clay_BoundingBox)
deriving DecidableEq, Repr

/-- The renderer's mutable state during a `Clay_Ncurses_Render` call: the
terminal screen, the color pair cache, the scissor stack, and the
instrumentation counter of terminal cells written during the current
call. -/
structure RenderState where
  screen : TerminalScreen
  cache : List ColorPairEntry
  scissor : ScissorState
  writes : Nat

/-- The clip region the draw handlers intersect against: the top of the
scissor stack. -/
def topClip (st : RenderState) : Clay_BoundingBox :=
  st.scissor.stack st.scissor.index

/-- The row-major list of cells of the clipped rectangle, as iterated by
the RECTANGLE fill loops (lines 154-162). -/
def cellList (dx dy dw dh : Int) : List (Int × Int) :=
  (List.range dh.toNat).flatMap
    (fun r => (List.range dw.toNat).map (fun c => (dy + r, dx + c)))

/-- The RECTANGLE fill loop body (lines 154-162): for each cell compare the
glyph and color pair on screen with the intended cell and write only on a
difference, counting each `mvaddch`. -/
def paintFill (target : ScreenCell) :
    List (Int × Int) → TerminalScreen → Nat → TerminalScreen × Nat
  | [], s, n => (s, n)
  | rc :: rest, s, n =>
    if s rc.1 rc.2 = target then paintFill target rest s n
    else paintFill target rest (screenPut s rc.1 rc.2 target) (n + 1)

/-- A border line-segment loop (lines 302-305 etc.): for each cell compare
only the glyph (`wc.chars[0] != wstr[0]`) with the intended line glyph and
on a difference write the glyph with the current attribute pair
(`mvprintw` under `attron(COLOR_PAIR(pair))`), counting the write. -/
def paintGlyphIfDiff (glyph : Nat) (pair : Int) :
    List (Int × Int) → TerminalScreen → Nat → TerminalScreen × Nat
  | [], s, n => (s, n)
  | rc :: rest, s, n =>
    if (s rc.1 rc.2).glyph = glyph then paintGlyphIfDiff glyph pair rest s n
    else paintGlyphIfDiff glyph pair rest (screenPut s rc.1 rc.2 ⟨glyph, pair⟩) (n + 1)

/-- An unconditional single-cell `mvprintw` (the border corner writes,
lines 342-357, which have no read-back comparison). -/
def paintCell (glyph : Nat) (pair : Int) (row col : Int) :
    TerminalScreen × Nat → TerminalScreen × Nat
  | (s, n) => (screenPut s row col ⟨glyph, pair⟩, n + 1)

/-- The cells of a horizontal segment of row `row`, columns `[lx, rx)`. -/
def hseg (row lx rx : Int) : List (Int × Int) :=
  (List.range (rx - lx).toNat).map (fun i => (row, lx + i))

/-- The cells of a vertical segment of column `col`, rows `[ty, byy)`. -/
def vseg (col ty byy : Int) : List (Int × Int) :=
  (List.range (byy - ty).toNat).map (fun i => (ty + i, col))

/-- Translation of the RECTANGLE command handler (lines 141-164). -/
def renderRectangle (colors : Int) (st : RenderState) (box : Clay_BoundingBox)
    (backgroundColor : Clay_Color) : RenderState :=
  let x := pxToCellX box.x
  let y := pxToCellY box.y
  let w := pxToCellX box.width
  let h := pxToCellY box.height
  match Clay_Ncurses_IntersectScissor (topClip st) x y w h with
  | none => st
  | some (dx, dy, dw, dh) =>
    let fg := Clay_Ncurses_GetColorId colors backgroundColor
    let pc := Clay_Ncurses_GetColorPair st.cache fg fg
    let sn := paintFill ⟨32, pc.1⟩ (cellList dx dy dw dh) st.screen 0
    { st with screen := sn.1, cache := pc.2, writes := st.writes + sn.2 }

/-- The glyphs the TEXT handler prints: `wbuf[printStart + i]` for
`i < printLen` (out-of-range indices read as 0; the clipping
characterization shows they do not occur). -/
def textGlyphs (wbuf : List Nat) (printStart printLen : Nat) : List Nat :=
  (List.range printLen).map (fun i => wbuf.getD (printStart + i) 0)

/-- The TEXT handler's `mvaddnwstr` (line 263): write the run's glyphs
with the current attribute pair, each glyph occupying its display width
in columns: a wide glyph fills its base cell and the continuation cell
(curses reads the wide character back from either), a single-width glyph
fills one cell, and a zero-width glyph combines into the preceding cell,
occupying no cell of its own (in this single-codepoint cell model the
preceding cell keeps its base glyph). -/
def writeRun (s : TerminalScreen) (row : Int) : Int → List Nat → Int → TerminalScreen
  | _, [], _ => s
  | col, g :: rest, pair =>
    if glyphAdvance g = 0 then writeRun s row col rest pair
    else if glyphAdvance g = 1 then
      writeRun (screenPut s row col ⟨g, pair⟩) row (col + 1) rest pair
    else
      writeRun (screenPut (screenPut s row col ⟨g, pair⟩) row (col + 1) ⟨g, pair⟩) row
        (col + 2) rest pair

/-- The number of terminal cells a glyph run occupies when written: the
sum of the glyphs' display widths.  This is the cell-write count of one
`mvaddnwstr` call. -/
def runCells (glyphs : List Nat) : Nat :=
  (glyphs.map (fun g => (glyphAdvance g).toNat)).sum

/-- Translation of the TEXT command handler (lines 165-276): measure the
text, clip against the scissor top, take the background color from the
pair already on screen at the draw origin, obtain the pair, decode the
bytes (nothing is drawn when `mbstowcs` fails), and select the visible
run.  The read-back at line 234 calls `mvin_wchnstr`, which returns OK
(defined as 0) on success and ERR on failure, and the code coerces ERR to
0 as well, so `readCount` is always 0; the short-read check
`readCount < printLen` at line 238 therefore holds whenever the run is
nonempty, the glyph comparison loop at lines 240-258 is dead code, and
the run is rewritten by `mvaddnwstr` on every pass with no effective
dirty gate. -/
def renderTextCmd (colors : Int) (st : RenderState) (box : Clay_BoundingBox)
    (chars : List Nat) (textColor : Clay_Color) : RenderState :=
  let x := pxToCellX box.x
  let y := pxToCellY box.y
  let textWidth : Int := Clay_Ncurses_MeasureStringWidth chars
  match Clay_Ncurses_IntersectScissor (topClip st) x y textWidth 1 with
  | none => st
  | some (dx, dy, dw, _dh) =>
    let fg := Clay_Ncurses_GetColorId colors textColor
    let bg := (Clay_Ncurses_PairContent st.cache (st.screen dy dx).pair).2
    let pc := Clay_Ncurses_GetColorPair st.cache fg bg
    let skipCols := dx - x
    let takeCols := dw
    match mbstowcsModel chars with
    | none => { st with cache := pc.2 }
    | some wbuf =>
      match Clay_Ncurses_ClipToWindow wbuf skipCols takeCols with
      | none => { st with cache := pc.2 }
      | some sl =>
        let readCount : Nat := 0
        let dirty := readCount < sl.2
        if dirty then
          { st with cache := pc.2,
                    screen := writeRun st.screen dy dx (textGlyphs wbuf sl.1 sl.2) pc.1,
                    writes := st.writes + runCells (textGlyphs wbuf sl.1 sl.2) }
        else { st with cache := pc.2 }

/-- Box-drawing glyph codepoints used by the BORDER handler. -/
def GLYPH_HLINE : Nat := 9472

def GLYPH_VLINE : Nat := 9474

def GLYPH_TL_SQUARE : Nat := 9484

def GLYPH_TR_SQUARE : Nat := 9488

def GLYPH_BL_SQUARE : Nat := 9492

def GLYPH_BR_SQUARE : Nat := 9496

def GLYPH_TL_ROUND : Nat := 9581

def GLYPH_TR_ROUND : Nat := 9582

def GLYPH_BR_ROUND : Nat := 9583

def GLYPH_BL_ROUND : Nat := 9584

/-- Translation of the BORDER command handler (lines 277-360): clip the
box, take the background from the pair on screen at the clipped origin,
obtain the pair, then draw the four line segments (each cell compared by
glyph only before writing) and the four corner glyphs (written
unconditionally, chosen by the per-corner rounding flag), each only when
its cells lie inside the clip window. -/
def renderBorder (colors : Int) (st : RenderState) (box : Clay_BoundingBox)
    (color : Clay_Color) (corners : Clay_BorderCorners) : RenderState :=
  let x := pxToCellX box.x
  let y := pxToCellY box.y
  let w := pxToCellX box.width
  let h := pxToCellY box.height
  match Clay_Ncurses_IntersectScissor (topClip st) x y w h with
  | none => st
  | some (dx, dy, dw, dh) =>
    let c := Clay_Ncurses_GetColorId colors color
    let bg := (Clay_Ncurses_PairContent st.cache (st.screen dy dx).pair).2
    let pc := Clay_Ncurses_GetColorPair st.cache c bg
    let pair := pc.1
    let s0 := (st.screen, 0)
    let s1 := if dy ≤ y ∧ y < dy + dh then
        paintGlyphIfDiff GLYPH_HLINE pair
          (hseg y (max (x + 1) dx) (min (x + 1 + (w - 2)) (dx + dw))) s0.1 s0.2
      else s0
    let s2 := if dy ≤ y + h - 1 ∧ y + h - 1 < dy + dh then
        paintGlyphIfDiff GLYPH_HLINE pair
          (hseg (y + h - 1) (max (x + 1) dx) (min (x + 1 + (w - 2)) (dx + dw))) s1.1 s1.2
      else s1
    let s3 := if dx ≤ x ∧ x < dx + dw then
        paintGlyphIfDiff GLYPH_VLINE pair
          (vseg x (max (y + 1) dy) (min (y + 1 + (h - 2)) (dy + dh))) s2.1 s2.2
      else s2
    let s4 := if dx ≤ x + w - 1 ∧ x + w - 1 < dx + dw then
        paintGlyphIfDiff GLYPH_VLINE pair
          (vseg (x + w - 1) (max (y + 1) dy) (min (y + 1 + (h - 2)) (dy + dh))) s3.1 s3.2
      else s3
    let s5 := if dx ≤ x ∧ x < dx + dw ∧ dy ≤ y ∧ y < dy + dh then
        paintCell (if corners.topLeft then GLYPH_TL_ROUND else GLYPH_TL_SQUARE) pair y x s4
      else s4
    let s6 := if dx ≤ x + w - 1 ∧ x + w - 1 < dx + dw ∧ dy ≤ y ∧ y < dy + dh then
        paintCell (if corners.topRight then GLYPH_TR_ROUND else GLYPH_TR_SQUARE) pair y (x + w - 1) s5
      else s5
    let s7 := if dx ≤ x ∧ x < dx + dw ∧ dy ≤ y + h - 1 ∧ y + h - 1 < dy + dh then
        paintCell (if corners.bottomLeft then GLYPH_BL_ROUND else GLYPH_BL_SQUARE) pair (y + h - 1) x s6
      else s6
    let s8 := if dx ≤ x + w - 1 ∧ x + w - 1 < dx + dw ∧ dy ≤ y + h - 1 ∧ y + h - 1 < dy + dh then
        paintCell (if corners.bottomRight then GLYPH_BR_ROUND else GLYPH_BR_SQUARE) pair (y + h - 1) (x + w - 1) s7
      else s7
    { st with screen := s8.1, cache := pc.2, writes := st.writes + s8.2 }

/-- One iteration of the command loop (lines 136-386): dispatch on the
command type. -/
def renderStep (colors : Int) (st : RenderState) : Clay_RenderCommand → RenderState
  | .rectangle box bc => renderRectangle colors st box bc
  | .text box chars tc => renderTextCmd colors st box chars tc
  | .border box c corners => renderBorder colors st box c corners
  | .scissorStart box => { st with scissor := scissorPush st.scissor box }
  | .scissorEnd _ => { st with scissor := scissorPop st.scissor }
  | .other _ => st

/-- The per-call reset at the head of `Clay_Ncurses_Render` (lines
133-134): the scissor stack is reset to a single full-screen entry (the
screen is `screenWidth x screenHeight` cells) and the write counter of the
new call starts at zero. -/
def renderInit (screenWidth screenHeight : Int) (st : RenderState) : RenderState :=
  { st with
    scissor :=
      { stack := fun i =>
          if i = 0 then
            ⟨0, 0, screenWidth * CLAY_NCURSES_CELL_WIDTH,
              screenHeight * CLAY_NCURSES_CELL_HEIGHT⟩
          else st.scissor.stack i,
        index := 0 },
    writes := 0 }

/-- Translation of `Clay_Ncurses_Render` (lines 123-389): reset the
scissor stack, then fold the command handlers over the command list.
`colors` is the terminal's color count, `screenWidth`/`screenHeight` its
cell geometry. -/
def Clay_Ncurses_Render (colors screenWidth screenHeight : Int) (st : RenderState)
    (renderCommands : List Clay_RenderCommand) : RenderState :=
  renderCommands.foldl (renderStep colors) (renderInit screenWidth screenHeight st)

/-- The specification's mapping of the three channel threshold bits to the
8 standard terminal colors, ordered by how many set bits the match
accounts for (all three: white, down to one: red/green/blue, none:
black). -/
def eightColorOf (r g b : Bool) : Int :=
  match r, g, b with
  | true, true, true => COLOR_WHITE
  | false, false, false => COLOR_BLACK
  | true, true, false => COLOR_YELLOW
  | true, false, true => COLOR_MAGENTA
  | false, true, true => COLOR_CYAN
  | true, false, false => COLOR_RED
  | false, true, false => COLOR_GREEN
  | false, false, true => COLOR_BLUE

/-- C7: with fewer than 256 colors, `Clay_Ncurses_MatchColor` thresholds
each channel at the midpoint (value 128 itself classifies as the low
side, uniformly for all three channels, since the test is strict `> 128`)
and maps the 8 bit combinations to the 8 standard terminal colors exactly
as the specification's table does; in particular the all-128 color maps
to black. -/
theorem clay_c7_low_color_quantization (colors : Int) (color : Clay_Color)
    (hc : colors < 256) :
    Clay_Ncurses_MatchColor colors color =
      eightColorOf (decide (128 < color.r)) (decide (128 < color.g)) (decide (128 < color.b))
    ∧ Clay_Ncurses_MatchColor colors ⟨128, 128, 128, 255⟩ = COLOR_BLACK := by
  constructor
  · unfold Clay_Ncurses_MatchColor
    rw [if_pos hc]
    by_cases hr : 128 < color.r <;> by_cases hg : 128 < color.g <;>
      by_cases hb : 128 < color.b <;>
      simp [hr, hg, hb, eightColorOf]
  · unfold Clay_Ncurses_MatchColor
    rw [if_pos hc]
    norm_num

theorem clay_c7_witness :
    Clay_Ncurses_MatchColor 8 ⟨200, 10, 10, 255⟩ =
      eightColorOf (decide (128 < (200 : Nat))) (decide (128 < (10 : Nat)))
        (decide (128 < (10 : Nat)))
    ∧ Clay_Ncurses_MatchColor 8 ⟨128, 128, 128, 255⟩ = COLOR_BLACK :=
  clay_c7_low_color_quantization 8 ⟨200, 10, 10, 255⟩ (by decide)

theorem floorBucket_eq (c : Nat) : ⌊(c : ℚ) / 255 * 5⌋ = ((c * 5 / 255 : Nat) : Int) := by
  have h : (c : ℚ) / 255 * 5 = ((c * 5 : Nat) : ℚ) / ((255 : Nat) : ℚ) := by
    push_cast
    ring
  rw [h, ← Int.natCast_floor_eq_floor (by positivity), Nat.floor_div_eq_div]

/-- C8: with 256 or more colors, `Clay_Ncurses_MatchColor` buckets every
channel c into level floor(c * 5 / 255) and returns the cube index
16 + 36*r + 6*g + b, for every input color; for channels in range the
level is between 0 and 5 (so the index lies in the 16..231 color cube). -/
theorem clay_c8_cube_quantization (colors : Int) (color : Clay_Color)
    (hc : 256 ≤ colors) :
    Clay_Ncurses_MatchColor colors color =
      16 + 36 * ((color.r * 5 / 255 : Nat) : Int) + 6 * ((color.g * 5 / 255 : Nat) : Int)
        + ((color.b * 5 / 255 : Nat) : Int)
    ∧ (color.r ≤ 255 → color.g ≤ 255 → color.b ≤ 255 →
        color.r * 5 / 255 ≤ 5 ∧ color.g * 5 / 255 ≤ 5 ∧ color.b * 5 / 255 ≤ 5) := by
  constructor
  · unfold Clay_Ncurses_MatchColor
    rw [if_neg (by omega)]
    rw [floorBucket_eq, floorBucket_eq, floorBucket_eq]
  · intro hr hg hb
    refine ⟨?_, ?_, ?_⟩ <;> omega

theorem clay_c8_witness :
    Clay_Ncurses_MatchColor 256 ⟨255, 128, 0, 255⟩ =
      16 + 36 * ((255 * 5 / 255 : Nat) : Int) + 6 * ((128 * 5 / 255 : Nat) : Int)
        + ((0 * 5 / 255 : Nat) : Int)
    ∧ ((255 : Nat) ≤ 255 → (128 : Nat) ≤ 255 → (0 : Nat) ≤ 255 →
        (255 : Nat) * 5 / 255 ≤ 5 ∧ (128 : Nat) * 5 / 255 ≤ 5 ∧ (0 : Nat) * 5 / 255 ≤ 5) :=
  clay_c8_cube_quantization 256 ⟨255, 128, 0, 255⟩ (by decide)

/-- C4: when the cache is full and the requested (fg, bg) combination is
not cached, `Clay_Ncurses_GetColorPair` returns the default pair id 0 and
leaves the cache (contents and size) unchanged; no error is produced (the
function total-returns a pair id). -/
theorem clay_c4_cache_full_returns_default (cache : List ColorPairEntry) (fg bg : Int)
    (hfull : MAX_COLOR_PAIRS_CACHE ≤ cache.length)
    (hmiss : ∀ e ∈ cache, ¬(e.fg = fg ∧ e.bg = bg)) :
    Clay_Ncurses_GetColorPair cache fg bg = (0, cache) := by
  unfold Clay_Ncurses_GetColorPair
  have hf : cache.find? (fun e => e.fg == fg && e.bg == bg) = none := by
    rw [List.find?_eq_none]
    intro e he
    have h := hmiss e he
    simp only [Bool.and_eq_true, beq_iff_eq]
    tauto
  rw [hf]
  simp [hfull]

/-- A concrete full cache of 1024 distinct pairs, for the C4 witness. -/
def fullPairCache : List ColorPairEntry :=
  (List.range MAX_COLOR_PAIRS_CACHE).map (fun (i : Nat) => ⟨(i : Int), 0, (i : Int) + 1⟩)

theorem clay_c4_witness :
    Clay_Ncurses_GetColorPair fullPairCache (-5) 1 = (0, fullPairCache) := by
  apply clay_c4_cache_full_returns_default
  · unfold fullPairCache
    rw [List.length_map, List.length_range]
  · intro e he
    simp only [fullPairCache, List.mem_map, List.mem_range] at he
    obtain ⟨i, _, rfl⟩ := he
    intro hcon
    have h2 := hcon.2
    simp at h2

theorem getColorPair_idem (cache : List ColorPairEntry) (fg bg : Int) :
    Clay_Ncurses_GetColorPair (Clay_Ncurses_GetColorPair cache fg bg).2 fg bg =
      Clay_Ncurses_GetColorPair cache fg bg := by
  cases hf : cache.find? (fun e => e.fg == fg && e.bg == bg) with
  | some e =>
    have h1 : Clay_Ncurses_GetColorPair cache fg bg = (e.pairId, cache) := by
      unfold Clay_Ncurses_GetColorPair
      rw [hf]
    rw [h1]
    exact h1
  | none =>
    by_cases hl : MAX_COLOR_PAIRS_CACHE ≤ cache.length
    · have h1 : Clay_Ncurses_GetColorPair cache fg bg = (0, cache) := by
        unfold Clay_Ncurses_GetColorPair
        rw [hf]
        simp [hl]
      rw [h1]
      exact h1
    · have h1 : Clay_Ncurses_GetColorPair cache fg bg =
          ((cache.length : Int) + 1, cache ++ [⟨fg, bg, (cache.length : Int) + 1⟩]) := by
        unfold Clay_Ncurses_GetColorPair
        rw [hf]
        simp [hl]
      rw [h1]
      show Clay_Ncurses_GetColorPair (cache ++ [⟨fg, bg, (cache.length : Int) + 1⟩]) fg bg =
        ((cache.length : Int) + 1, cache ++ [⟨fg, bg, (cache.length : Int) + 1⟩])
      unfold Clay_Ncurses_GetColorPair
      rw [List.find?_append, hf]
      simp [List.find?]

theorem find_key_stable (cache : List ColorPairEntry) (a b fg bg : Int) (e : ColorPairEntry)
    (h : cache.find? (fun x => x.fg == fg && x.bg == bg) = some e) :
    ((Clay_Ncurses_GetColorPair cache a b).2).find? (fun x => x.fg == fg && x.bg == bg) =
      some e := by
  unfold Clay_Ncurses_GetColorPair
  cases hf : cache.find? (fun x => x.fg == a && x.bg == b) with
  | some _ => simpa using h
  | none =>
    by_cases hl : MAX_COLOR_PAIRS_CACHE ≤ cache.length
    · simp only [if_pos hl]
      exact h
    · simp only [if_neg hl]
      rw [List.find?_append, h]
      rfl

theorem getColorPair_full_frozen (cache : List ColorPairEntry) (a b : Int)
    (h : MAX_COLOR_PAIRS_CACHE ≤ cache.length) :
    (Clay_Ncurses_GetColorPair cache a b).2 = cache := by
  unfold Clay_Ncurses_GetColorPair
  cases hf : cache.find? (fun x => x.fg == a && x.bg == b) with
  | some _ => rfl
  | none => simp [h]

theorem applyPairRequests_find_stable (reqs : List (Int × Int))
    (cache : List ColorPairEntry) (fg bg : Int) (e : ColorPairEntry)
    (h : cache.find? (fun x => x.fg == fg && x.bg == bg) = some e) :
    (applyPairRequests cache reqs).find? (fun x => x.fg == fg && x.bg == bg) = some e := by
  induction reqs generalizing cache with
  | nil => exact h
  | cons r rs ih =>
    have hstep := find_key_stable cache r.1 r.2 fg bg e h
    simpa [applyPairRequests] using ih _ hstep

theorem applyPairRequests_full_frozen (reqs : List (Int × Int))
    (cache : List ColorPairEntry) (h : MAX_COLOR_PAIRS_CACHE ≤ cache.length) :
    applyPairRequests cache reqs = cache := by
  induction reqs with
  | nil => rfl
  | cons r rs ih =>
    have hstep := getColorPair_full_frozen cache r.1 r.2 h
    calc applyPairRequests cache (r :: rs)
        = applyPairRequests (Clay_Ncurses_GetColorPair cache r.1 r.2).2 rs := by
          simp [applyPairRequests]
      _ = applyPairRequests cache rs := by rw [hstep]
      _ = cache := ih

theorem getColorPair_length_le (cache : List ColorPairEntry) (a b : Int)
    (h : cache.length ≤ MAX_COLOR_PAIRS_CACHE) :
    (Clay_Ncurses_GetColorPair cache a b).2.length ≤ MAX_COLOR_PAIRS_CACHE := by
  unfold Clay_Ncurses_GetColorPair
  cases hf : cache.find? (fun x => x.fg == a && x.bg == b) with
  | some _ => exact h
  | none =>
    by_cases hl : MAX_COLOR_PAIRS_CACHE ≤ cache.length
    · simp only [if_pos hl]
      exact h
    · simp only [if_neg hl, List.length_append, List.length_cons, List.length_nil]
      omega

theorem applyPairRequests_length_le (reqs : List (Int × Int))
    (cache : List ColorPairEntry) (h : cache.length ≤ MAX_COLOR_PAIRS_CACHE) :
    (applyPairRequests cache reqs).length ≤ MAX_COLOR_PAIRS_CACHE := by
  induction reqs generalizing cache with
  | nil => exact h
  | cons r rs ih =>
    have hstep := getColorPair_length_le cache r.1 r.2 h
    simpa [applyPairRequests] using ih _ hstep

theorem getColorPair_stable (cache : List ColorPairEntry) (fg bg : Int)
    (reqs : List (Int × Int)) :
    (Clay_Ncurses_GetColorPair
        (applyPairRequests (Clay_Ncurses_GetColorPair cache fg bg).2 reqs) fg bg).1 =
      (Clay_Ncurses_GetColorPair cache fg bg).1 := by
  cases hf : cache.find? (fun x => x.fg == fg && x.bg == bg) with
  | some e =>
    have h1 : Clay_Ncurses_GetColorPair cache fg bg = (e.pairId, cache) := by
      unfold Clay_Ncurses_GetColorPair
      rw [hf]
    have h2 := applyPairRequests_find_stable reqs cache fg bg e hf
    rw [h1]
    unfold Clay_Ncurses_GetColorPair
    rw [h2]
  | none =>
    by_cases hl : MAX_COLOR_PAIRS_CACHE ≤ cache.length
    · have h1 : Clay_Ncurses_GetColorPair cache fg bg = (0, cache) := by
        unfold Clay_Ncurses_GetColorPair
        rw [hf]
        simp [hl]
      rw [h1]
      have h2 : applyPairRequests cache reqs = cache := applyPairRequests_full_frozen reqs cache hl
      simp only [h2]
      unfold Clay_Ncurses_GetColorPair
      rw [hf]
      simp [hl]
    · have h1 : Clay_Ncurses_GetColorPair cache fg bg =
          ((cache.length : Int) + 1, cache ++ [⟨fg, bg, (cache.length : Int) + 1⟩]) := by
        unfold Clay_Ncurses_GetColorPair
        rw [hf]
        simp [hl]
      have hnew : (cache ++ [(⟨fg, bg, (cache.length : Int) + 1⟩ : ColorPairEntry)]).find?
          (fun x => x.fg == fg && x.bg == bg) = some ⟨fg, bg, (cache.length : Int) + 1⟩ := by
        rw [List.find?_append, hf]
        simp [List.find?]
      have h2 := applyPairRequests_find_stable reqs _ fg bg _ hnew
      rw [h1]
      unfold Clay_Ncurses_GetColorPair
      rw [h2]

/-- C3: (a) calling `Clay_Ncurses_GetColorPair` twice with identical
arguments returns the same id and the same cache (idempotence); (b) once
a (fg, bg) request has been answered, any sequence of further requests
leaves that answer unchanged — the id assigned to a pair is stable for
the process lifetime and is never reused or evicted; (c) the cache never
grows past its fixed capacity of MAX_COLOR_PAIRS_CACHE distinct pairs. -/
theorem clay_c3_pair_cache_stability (cache : List ColorPairEntry) (fg bg : Int)
    (reqs : List (Int × Int)) :
    Clay_Ncurses_GetColorPair (Clay_Ncurses_GetColorPair cache fg bg).2 fg bg =
        Clay_Ncurses_GetColorPair cache fg bg
    ∧ (Clay_Ncurses_GetColorPair
          (applyPairRequests (Clay_Ncurses_GetColorPair cache fg bg).2 reqs) fg bg).1 =
        (Clay_Ncurses_GetColorPair cache fg bg).1
    ∧ (cache.length ≤ MAX_COLOR_PAIRS_CACHE →
        (applyPairRequests cache reqs).length ≤ MAX_COLOR_PAIRS_CACHE) :=
  ⟨getColorPair_idem cache fg bg, getColorPair_stable cache fg bg reqs,
    fun h => applyPairRequests_length_le reqs cache h⟩

theorem clay_c3_witness :
    Clay_Ncurses_GetColorPair (Clay_Ncurses_GetColorPair [] 3 4).2 3 4 =
        Clay_Ncurses_GetColorPair [] 3 4
    ∧ (Clay_Ncurses_GetColorPair
          (applyPairRequests (Clay_Ncurses_GetColorPair [] 3 4).2 [(1, 2), (3, 4), (5, 6)]) 3 4).1 =
        (Clay_Ncurses_GetColorPair [] 3 4).1
    ∧ (applyPairRequests [] [(1, 2), (3, 4), (5, 6)]).length ≤ MAX_COLOR_PAIRS_CACHE :=
  have h := clay_c3_pair_cache_stability [] 3 4 [(1, 2), (3, 4), (5, 6)]
  ⟨h.1, h.2.1, h.2.2 (by decide)⟩

/-- C6: `Clay_Ncurses_IntersectScissor` returns not-found exactly when the
intersection of the candidate rectangle with the (cell-converted) current
clip top has zero or negative width or height — equivalently, when the two
rectangles share no cell — and otherwise returns the rectangle whose cells
are exactly the cells common to both (the exact mathematical intersection,
boundary-touching cases included). -/
theorem clay_c6_intersect_exact (clip : Clay_BoundingBox) (x y w h : Int) :
    (Clay_Ncurses_IntersectScissor clip x y w h = none ↔
      ∀ p q, ¬(cellInBox x y w h p q ∧
        cellInBox (pxToCellX clip.x) (pxToCellY clip.y) (pxToCellX clip.width)
          (pxToCellY clip.height) p q))
    ∧ ∀ ix iy iw ih, Clay_Ncurses_IntersectScissor clip x y w h = some (ix, iy, iw, ih) →
        (0 < iw ∧ 0 < ih) ∧
          ∀ p q, cellInBox ix iy iw ih p q ↔
            (cellInBox x y w h p q ∧
              cellInBox (pxToCellX clip.x) (pxToCellY clip.y) (pxToCellX clip.width)
                (pxToCellY clip.height) p q) := by
  constructor
  · constructor
    · intro hn p q hpq
      by_cases hc : (min (x + w) (pxToCellX clip.x + pxToCellX clip.width) - max x (pxToCellX clip.x) ≤ 0
          ∨ min (y + h) (pxToCellY clip.y + pxToCellY clip.height) - max y (pxToCellY clip.y) ≤ 0)
      · unfold cellInBox at hpq
        omega
      · unfold Clay_Ncurses_IntersectScissor at hn
        simp only [if_neg hc] at hn
        exact Option.noConfusion hn
    · intro hall
      by_cases hc : (min (x + w) (pxToCellX clip.x + pxToCellX clip.width) - max x (pxToCellX clip.x) ≤ 0
          ∨ min (y + h) (pxToCellY clip.y + pxToCellY clip.height) - max y (pxToCellY clip.y) ≤ 0)
      · unfold Clay_Ncurses_IntersectScissor
        simp only [if_pos hc]
      · exfalso
        apply hall (max x (pxToCellX clip.x)) (max y (pxToCellY clip.y))
        unfold cellInBox
        omega
  · intro ix iy iw ih hs
    unfold Clay_Ncurses_IntersectScissor at hs
    by_cases hc : (min (x + w) (pxToCellX clip.x + pxToCellX clip.width) - max x (pxToCellX clip.x) ≤ 0
        ∨ min (y + h) (pxToCellY clip.y + pxToCellY clip.height) - max y (pxToCellY clip.y) ≤ 0)
    · simp only [if_pos hc] at hs
      exact Option.noConfusion hs
    · simp only [if_neg hc, Option.some.injEq, Prod.mk.injEq] at hs
      obtain ⟨h1, h2, h3, h4⟩ := hs
      constructor
      · omega
      · intro p q
        unfold cellInBox
        omega

theorem clay_c6_witness :
    ((0 : Int) < 2 ∧ (0 : Int) < 5)
    ∧ (cellInBox 8 0 2 5 8 4 ↔
        (cellInBox 8 0 2 5 8 4 ∧
          cellInBox (pxToCellX (0 : Int)) (pxToCellY (0 : Int)) (pxToCellX (80 : Int))
            (pxToCellY (80 : Int)) 8 4)) :=
  have h := (clay_c6_intersect_exact ⟨0, 0, 80, 80⟩ 8 0 2 5).2 8 0 2 5 (by decide)
  ⟨h.1, h.2 8 4⟩

theorem clipApply_stack_low (st : ScissorState) (op : ClipOp) (j : Int) (hj : j ≤ st.index) :
    (clipApply st op).stack j = st.stack j := by
  cases op with
  | push b =>
    show (scissorPush st b).stack j = st.stack j
    unfold scissorPush
    split
    · have hne : ¬(j = st.index + 1) := by omega
      simp [hne]
    · rfl
  | pop =>
    show (scissorPop st).stack j = st.stack j
    unfold scissorPop
    split <;> rfl

theorem clipApplySeq_stack_low (ops : List ClipOp) (st : ScissorState) (d : Int)
    (hd : d ≤ st.index)
    (hpre : ∀ k, k ≤ ops.length → d ≤ (clipApplySeq st (ops.take k)).index) :
    (clipApplySeq st ops).stack d = st.stack d := by
  induction ops generalizing st with
  | nil => rfl
  | cons op rest ih =>
    have h1 : d ≤ (clipApply st op).index := by
      have h := hpre 1 (by simp)
      simpa [clipApplySeq, List.take_succ_cons, List.take_zero] using h
    have h2 : clipApplySeq st (op :: rest) = clipApplySeq (clipApply st op) rest := by
      simp [clipApplySeq]
    rw [h2, ih (clipApply st op) h1 ?_, clipApply_stack_low st op d hd]
    intro k hk
    have h := hpre (k + 1) (by simpa using Nat.succ_le_succ hk)
    simpa [clipApplySeq, List.take_succ_cons] using h

/-- C2: for every sequence of push/pop operations on the clip stack
(arbitrary sequences, including ones whose pushes were dropped at
capacity), if the stack depth never goes below its starting depth d and
returns to d, the active clip region is exactly the region that was
active at depth d before the sequence (stack discipline: entries at or
below the current depth are never mutated); and a push arriving with the
stack at capacity is dropped, leaving the whole state - in particular the
current top region - unchanged. -/
theorem clay_c2_clip_stack_discipline (st : ScissorState) (ops : List ClipOp)
    (b : Clay_BoundingBox)
    (hpre : ∀ k, k ≤ ops.length → st.index ≤ (clipApplySeq st (ops.take k)).index)
    (hret : (clipApplySeq st ops).index = st.index) :
    activeClip (clipApplySeq st ops) = activeClip st
    ∧ (MAX_SCISSOR_STACK_DEPTH - 1 ≤ st.index → scissorPush st b = st) := by
  constructor
  · unfold activeClip
    rw [hret, clipApplySeq_stack_low ops st st.index le_rfl hpre]
  · intro hcap
    unfold scissorPush
    rw [if_neg (by omega)]

/-- A concrete clip-stack state for exercising the stack-discipline
theorem: depth 1, with distinct regions stored at each depth. -/
def c2WitnessState : ScissorState :=
  ⟨fun i => ⟨i * 8, i * 16, 80 - i * 8, 160 - i * 16⟩, 1⟩

theorem clay_c2_witness :
    activeClip (clipApplySeq c2WitnessState
        [ClipOp.push ⟨0, 0, 40, 48⟩, ClipOp.push ⟨8, 16, 16, 32⟩, ClipOp.pop, ClipOp.pop]) =
      activeClip c2WitnessState
    ∧ (MAX_SCISSOR_STACK_DEPTH - 1 ≤ c2WitnessState.index →
        scissorPush c2WitnessState ⟨0, 0, 8, 16⟩ = c2WitnessState) :=
  clay_c2_clip_stack_discipline c2WitnessState
    [ClipOp.push ⟨0, 0, 40, 48⟩, ClipOp.push ⟨8, 16, 16, 32⟩, ClipOp.pop, ClipOp.pop]
    ⟨0, 0, 8, 16⟩
    (by
      intro k hk
      simp only [List.length_cons, List.length_nil] at hk
      interval_cases k <;> decide)
    (by decide)

theorem renderRectangle_scissor (colors : Int) (st : RenderState) (box : Clay_BoundingBox)
    (bc : Clay_Color) : (renderRectangle colors st box bc).scissor = st.scissor := by
  simp only [renderRectangle]
  split <;> rfl

theorem renderTextCmd_scissor (colors : Int) (st : RenderState) (box : Clay_BoundingBox)
    (chars : List Nat) (tc : Clay_Color) :
    (renderTextCmd colors st box chars tc).scissor = st.scissor := by
  simp only [renderTextCmd]
  repeat' split
  all_goals rfl

theorem renderBorder_scissor (colors : Int) (st : RenderState) (box : Clay_BoundingBox)
    (c : Clay_Color) (corners : Clay_BorderCorners) :
    (renderBorder colors st box c corners).scissor = st.scissor := by
  simp only [renderBorder]
  split <;> rfl

theorem renderStep_index_bounds (colors : Int) (st : RenderState) (cmd : Clay_RenderCommand)
    (h0 : 0 ≤ st.scissor.index) (h1 : st.scissor.index ≤ MAX_SCISSOR_STACK_DEPTH - 1) :
    0 ≤ (renderStep colors st cmd).scissor.index ∧
      (renderStep colors st cmd).scissor.index ≤ MAX_SCISSOR_STACK_DEPTH - 1 := by
  cases cmd with
  | rectangle box bc =>
    show 0 ≤ (renderRectangle colors st box bc).scissor.index ∧
      (renderRectangle colors st box bc).scissor.index ≤ MAX_SCISSOR_STACK_DEPTH - 1
    rw [renderRectangle_scissor]
    exact ⟨h0, h1⟩
  | text box chars tc =>
    show 0 ≤ (renderTextCmd colors st box chars tc).scissor.index ∧
      (renderTextCmd colors st box chars tc).scissor.index ≤ MAX_SCISSOR_STACK_DEPTH - 1
    rw [renderTextCmd_scissor]
    exact ⟨h0, h1⟩
  | border box c corners =>
    show 0 ≤ (renderBorder colors st box c corners).scissor.index ∧
      (renderBorder colors st box c corners).scissor.index ≤ MAX_SCISSOR_STACK_DEPTH - 1
    rw [renderBorder_scissor]
    exact ⟨h0, h1⟩
  | scissorStart box =>
    show 0 ≤ (scissorPush st.scissor box).index ∧ (scissorPush st.scissor box).index ≤ _
    unfold scissorPush
    split
    · constructor <;> simp <;> omega
    · exact ⟨h0, h1⟩
  | scissorEnd box =>
    show 0 ≤ (scissorPop st.scissor).index ∧ (scissorPop st.scissor).index ≤ _
    unfold scissorPop
    split
    · constructor <;> simp <;> omega
    · exact ⟨h0, h1⟩
  | other box => exact ⟨h0, h1⟩

theorem renderFold_index_bounds (colors : Int) (cmds : List Clay_RenderCommand)
    (st : RenderState) (h0 : 0 ≤ st.scissor.index)
    (h1 : st.scissor.index ≤ MAX_SCISSOR_STACK_DEPTH - 1) :
    0 ≤ (cmds.foldl (renderStep colors) st).scissor.index ∧
      (cmds.foldl (renderStep colors) st).scissor.index ≤ MAX_SCISSOR_STACK_DEPTH - 1 := by
  induction cmds generalizing st with
  | nil => exact ⟨h0, h1⟩
  | cons c cs ih =>
    simp only [List.foldl_cons]
    obtain ⟨a, b⟩ := renderStep_index_bounds colors st c h0 h1
    exact ih _ a b

/-- C10: the scissor stack index is reset to 0 at the start of every
`Clay_Ncurses_Render` call, and after processing any prefix of any command
list (arbitrarily many ScissorStart commands, unmatched ScissorEnd
commands, or both) it remains within [0, MAX_SCISSOR_STACK_DEPTH - 1].
Since the handlers read the stack only at the current index and the push
writes only at index + 1 under the guard index < MAX - 1, every stack
array access is in bounds. -/
theorem clay_c10_scissor_index_in_bounds (colors screenWidth screenHeight : Int)
    (st : RenderState) (cmds : List Clay_RenderCommand) (k : Nat) :
    (renderInit screenWidth screenHeight st).scissor.index = 0
    ∧ 0 ≤ ((cmds.take k).foldl (renderStep colors)
        (renderInit screenWidth screenHeight st)).scissor.index
    ∧ ((cmds.take k).foldl (renderStep colors)
        (renderInit screenWidth screenHeight st)).scissor.index
        ≤ MAX_SCISSOR_STACK_DEPTH - 1 := by
  refine ⟨rfl, ?_⟩
  have h := renderFold_index_bounds colors (cmds.take k)
    (renderInit screenWidth screenHeight st) (by simp [renderInit])
    (by simp [renderInit, MAX_SCISSOR_STACK_DEPTH])
  exact h

theorem measure_eq_sum (bs : List Nat) :
    Clay_Ncurses_MeasureStringWidth bs = ((utf8Codepoints bs).map glyphContribution).sum := by
  induction bs using Clay_Ncurses_MeasureStringWidth.induct with
  | case1 => simp [Clay_Ncurses_MeasureStringWidth, utf8Codepoints]
  | case2 b rest h ih =>
    rw [Clay_Ncurses_MeasureStringWidth, utf8Codepoints, h]
    simpa [glyphContribution] using ih
  | case3 b rest n h ih =>
    rw [Clay_Ncurses_MeasureStringWidth, utf8Codepoints, h]
    simpa [glyphContribution] using ih
  | case4 b rest cp n h hcp ih =>
    rw [Clay_Ncurses_MeasureStringWidth, utf8Codepoints, h]
    simp only [if_neg hcp, List.map_cons, List.sum_cons, glyphContribution]
    omega

theorem glyphContribution_le_two (t : Option Nat) : glyphContribution t ≤ 2 := by
  cases t with
  | none => simp [glyphContribution]
  | some cp =>
    show (glyphAdvance cp).toNat ≤ 2
    unfold glyphAdvance wcwidth
    split_ifs <;> simp

/-- C9: for every byte slice, the measurement loop terminates with the sum
over its token walk of the per-token column contribution: each decoded
codepoint contributes its clamped display width and each malformed (or
null) byte is skipped as exactly one byte contributing zero columns (that
is what `utf8Codepoints` records); every contribution is 0, 1 or 2.
Measurement is a total function, so no input - including invalid byte
sequences - aborts it. -/
theorem clay_c9_measure_width_total (bs : List Nat) :
    Clay_Ncurses_MeasureStringWidth bs = ((utf8Codepoints bs).map glyphContribution).sum
    ∧ ∀ t, glyphContribution t ≤ 2 :=
  ⟨measure_eq_sum bs, fun t => glyphContribution_le_two t⟩

theorem glyphAdvance_nonneg (cp : Nat) : 0 ≤ glyphAdvance cp := by
  unfold glyphAdvance wcwidth
  split_ifs <;> omega

def cntWin (skipCols takeCols : Int) : Int → List Nat → Nat
  | _, [] => 0
  | col, c :: rest =>
    (if skipCols ≤ col ∧ col < skipCols + takeCols then 1 else 0) +
      cntWin skipCols takeCols (col + glyphAdvance c) rest

def fstWin (skipCols takeCols : Int) : Int → List Nat → Option Nat
  | _, [] => none
  | col, c :: rest =>
    if skipCols ≤ col ∧ col < skipCols + takeCols then some 0
    else (fstWin skipCols takeCols (col + glyphAdvance c) rest).map (fun j => j + 1)

theorem cntWin_eq_zero_of_ge (skipCols takeCols : Int) (rest : List Nat) :
    ∀ col, skipCols + takeCols ≤ col → cntWin skipCols takeCols col rest = 0 := by
  induction rest with
  | nil => intro col _; rfl
  | cons c cs ih =>
    intro col h
    unfold cntWin
    rw [if_neg (by omega), ih _ (by have := glyphAdvance_nonneg c; omega)]

theorem fstWin_eq_none_of_ge (skipCols takeCols : Int) (rest : List Nat) :
    ∀ col, skipCols + takeCols ≤ col → fstWin skipCols takeCols col rest = none := by
  induction rest with
  | nil => intro col _; rfl
  | cons c cs ih =>
    intro col h
    unfold fstWin
    rw [if_neg (by omega), ih _ (by have := glyphAdvance_nonneg c; omega)]
    rfl

theorem fstWin_none_iff (skipCols takeCols : Int) (rest : List Nat) :
    ∀ col, (fstWin skipCols takeCols col rest = none ↔ cntWin skipCols takeCols col rest = 0) := by
  induction rest with
  | nil => intro col; simp [fstWin, cntWin]
  | cons c cs ih =>
    intro col
    unfold fstWin cntWin
    by_cases hsel : skipCols ≤ col ∧ col < skipCols + takeCols
    · simp [hsel]
    · simp [hsel, ih]

theorem clipRun_some (skipCols takeCols : Int) (rest : List Nat) :
    ∀ (k : Nat) (col : Int) (s : Nat) (pl : Nat),
      clipRun skipCols takeCols rest k col (some s) pl =
        (some s, pl + cntWin skipCols takeCols col rest) := by
  induction rest with
  | nil => intro k col s pl; simp [clipRun, cntWin]
  | cons c cs ih =>
    intro k col s pl
    unfold clipRun cntWin
    by_cases hsel : skipCols ≤ col ∧ col < skipCols + takeCols <;>
      by_cases hbr : skipCols + takeCols ≤ col + glyphAdvance c
    · rw [cntWin_eq_zero_of_ge _ _ _ _ hbr]
      simp [hsel, hbr]
    · simp [hsel, hbr, ih]
      omega
    · rw [cntWin_eq_zero_of_ge _ _ _ _ hbr]
      simp [hsel, hbr]
    · simp [hsel, hbr, ih]


theorem clipRun_none (skipCols takeCols : Int) (rest : List Nat) :
    ∀ (k : Nat) (col : Int) (pl : Nat),
      clipRun skipCols takeCols rest k col none pl =
        (match fstWin skipCols takeCols col rest with
          | none => (none, pl)
          | some j => (some (k + j), pl + cntWin skipCols takeCols col rest)) := by
  induction rest with
  | nil => intro k col pl; rfl
  | cons c cs ih =>
    intro k col pl
    unfold clipRun fstWin cntWin
    by_cases hsel : skipCols ≤ col ∧ col < skipCols + takeCols <;>
      by_cases hbr : skipCols + takeCols ≤ col + glyphAdvance c
    · rw [cntWin_eq_zero_of_ge _ _ _ _ hbr]
      simp [hsel, hbr]
    · simp [hsel, hbr, clipRun_some]
      omega
    · rw [fstWin_eq_none_of_ge _ _ _ _ hbr]
      simp [hsel, hbr]
    · cases hf : fstWin skipCols takeCols (col + glyphAdvance c) cs with
      | none => simp [hsel, hbr, ih, hf]
      | some j =>
        simp [hsel, hbr, ih, hf]
        omega


theorem fstWin_zero_of_ge_skip (skipCols takeCols : Int) (cs : List Nat) (col : Int)
    (hcol : skipCols ≤ col) (t : Nat) (hf : fstWin skipCols takeCols col cs = some t) :
    t = 0 := by
  cases cs with
  | nil => simp [fstWin] at hf
  | cons c2 cs2 =>
    unfold fstWin at hf
    by_cases hw : skipCols ≤ col ∧ col < skipCols + takeCols
    · rw [if_pos hw] at hf
      simpa using hf.symm
    · have hge : skipCols + takeCols ≤ col + glyphAdvance c2 := by
        have := glyphAdvance_nonneg c2
        omega
      rw [if_neg hw, fstWin_eq_none_of_ge _ _ _ _ hge] at hf
      simp at hf

theorem fstWin_cntWin_char (skipCols takeCols : Int) (cps : List Nat) :
    ∀ (col : Int) (j : Nat), j < cps.length →
      ((∃ s, fstWin skipCols takeCols col cps = some s ∧
          s ≤ j ∧ j < s + cntWin skipCols takeCols col cps) ↔
        (skipCols ≤ col + startColumn cps j ∧
          col + startColumn cps j < skipCols + takeCols)) := by
  induction cps with
  | nil =>
    intro col j hj
    exact absurd hj (by simp)
  | cons c cs ih =>
    intro col j hj
    have hadv := glyphAdvance_nonneg c
    by_cases hsel : skipCols ≤ col ∧ col < skipCols + takeCols
    · match j with
      | 0 =>
        unfold fstWin cntWin startColumn
        simp [hsel]
      | i + 1 =>
        have hIH := ih (col + glyphAdvance c) i (by simpa using hj)
        unfold fstWin cntWin startColumn
        cases hf : fstWin skipCols takeCols (col + glyphAdvance c) cs with
        | none =>
          have hz : cntWin skipCols takeCols (col + glyphAdvance c) cs = 0 :=
            (fstWin_none_iff skipCols takeCols cs (col + glyphAdvance c)).mp hf
          rw [hf] at hIH
          simp at hIH
          simp [hsel, hz]
          all_goals omega
        | some t =>
          have ht : t = 0 := fstWin_zero_of_ge_skip skipCols takeCols cs
            (col + glyphAdvance c) (by omega) t hf
          subst ht
          rw [hf] at hIH
          simp at hIH
          simp [hsel]
          all_goals omega
    · match j with
      | 0 =>
        unfold fstWin cntWin startColumn
        cases hf : fstWin skipCols takeCols (col + glyphAdvance c) cs with
        | none => simp [hsel, hf]
        | some t => simp [hsel, hf]
      | i + 1 =>
        have hIH := ih (col + glyphAdvance c) i (by simpa using hj)
        unfold fstWin cntWin startColumn
        cases hf : fstWin skipCols takeCols (col + glyphAdvance c) cs with
        | none =>
          rw [hf] at hIH
          simp at hIH
          simp [hsel, hf]
          all_goals omega
        | some t =>
          rw [hf] at hIH
          simp at hIH
          simp [hsel, hf]
          all_goals omega


theorem clipToWindow_char (cps : List Nat) (skipCols takeCols : Int) (j : Nat)
    (hj : j < cps.length) :
    clipSelected (Clay_Ncurses_ClipToWindow cps skipCols takeCols) j ↔
      (skipCols ≤ startColumn cps j ∧ startColumn cps j < skipCols + takeCols) := by
  have h := fstWin_cntWin_char skipCols takeCols cps 0 j hj
  simp only [zero_add] at h
  unfold Clay_Ncurses_ClipToWindow
  rw [clipRun_none]
  cases hf : fstWin skipCols takeCols 0 cps with
  | none =>
    rw [hf] at h
    simp at h
    simp [clipSelected]
    omega
  | some s =>
    rw [hf] at h
    simp at h
    simp [clipSelected]
    omega


/-- C5: the TEXT clipping loop selects exactly the codepoints whose start
column falls within [skipCols, skipCols + takeCols) - in particular a
codepoint that starts before the window but whose width extends into it is
excluded entirely; and on the concrete string of one full-width glyph
(U+FF21, UTF-8 EF BC A1) followed by three ASCII characters, MeasureWidth
returns 5 and clipping with skip 1, take 3 excludes the wide glyph,
returning exactly the run of codepoints starting inside columns [1, 4)
(start index 1, length 2). -/
theorem clay_c5_text_clipping (cps : List Nat) (skipCols takeCols : Int) (j : Nat)
    (hj : j < cps.length) :
    (clipSelected (Clay_Ncurses_ClipToWindow cps skipCols takeCols) j ↔
      (skipCols ≤ startColumn cps j ∧ startColumn cps j < skipCols + takeCols))
    ∧ Clay_Ncurses_MeasureStringWidth [239, 188, 161, 97, 98, 99] = 5
    ∧ Clay_Ncurses_ClipToWindow [65313, 97, 98, 99] 1 3 = some (1, 2) :=
  ⟨clipToWindow_char cps skipCols takeCols j hj,
    by
      simp [Clay_Ncurses_MeasureStringWidth, utf8DecodeFirst, utf8Cont, glyphAdvance, wcwidth,
        wcwidthCombining, wcwidthWide],
    by decide⟩

theorem clay_c5_witness :
    (clipSelected (Clay_Ncurses_ClipToWindow [65313, 97, 98, 99] 1 3) 0 ↔
      (1 ≤ startColumn [65313, 97, 98, 99] 0 ∧ startColumn [65313, 97, 98, 99] 0 < 1 + 3))
    ∧ Clay_Ncurses_MeasureStringWidth [239, 188, 161, 97, 98, 99] = 5
    ∧ Clay_Ncurses_ClipToWindow [65313, 97, 98, 99] 1 3 = some (1, 2) :=
  clay_c5_text_clipping [65313, 97, 98, 99] 1 3 0 (by decide)


theorem paintFill_screen (target : ScreenCell) (cells : List (Int × Int)) :
    ∀ (s : TerminalScreen) (n : Nat) (r c : Int),
      (paintFill target cells s n).1 r c = target ∨
        (paintFill target cells s n).1 r c = s r c := by
  induction cells with
  | nil => intro s n r c; right; rfl
  | cons rc rest ih =>
    intro s n r c
    unfold paintFill
    by_cases h : s rc.1 rc.2 = target
    · rw [if_pos h]
      exact ih s n r c
    · rw [if_neg h]
      rcases ih (screenPut s rc.1 rc.2 target) (n + 1) r c with h2 | h2
      · left; exact h2
      · rw [h2]
        unfold screenPut
        by_cases h3 : r = rc.1 ∧ c = rc.2
        · rw [if_pos h3]; left; rfl
        · rw [if_neg h3]; right; rfl

theorem paintFill_covers (target : ScreenCell) (cells : List (Int × Int)) :
    ∀ (s : TerminalScreen) (n : Nat), ∀ rc ∈ cells,
      (paintFill target cells s n).1 rc.1 rc.2 = target := by
  induction cells with
  | nil => intro s n rc h; exact absurd h (List.not_mem_nil rc)
  | cons rc0 rest ih =>
    intro s n rc h
    unfold paintFill
    by_cases hh : s rc0.1 rc0.2 = target
    · rw [if_pos hh]
      rcases List.mem_cons.mp h with he | hm
      · subst he
        rcases paintFill_screen target rest s n rc.1 rc.2 with h2 | h2
        · exact h2
        · rw [h2]; exact hh
      · exact ih s n rc hm
    · rw [if_neg hh]
      rcases List.mem_cons.mp h with he | hm
      · subst he
        rcases paintFill_screen target rest (screenPut s rc.1 rc.2 target) (n + 1)
            rc.1 rc.2 with h2 | h2
        · exact h2
        · rw [h2]
          unfold screenPut
          rw [if_pos ⟨rfl, rfl⟩]
      · exact ih _ _ rc hm

theorem paintFill_clean (target : ScreenCell) (cells : List (Int × Int)) :
    ∀ (s : TerminalScreen) (n : Nat), (∀ rc ∈ cells, s rc.1 rc.2 = target) →
      paintFill target cells s n = (s, n) := by
  induction cells with
  | nil => intro s n _; rfl
  | cons rc rest ih =>
    intro s n hall
    unfold paintFill
    rw [if_pos (hall rc (List.mem_cons_self rc rest))]
    exact ih s n (fun x hx => hall x (List.mem_cons_of_mem rc hx))

theorem renderRectangle_eq_none (colors : Int) (st : RenderState) (box : Clay_BoundingBox)
    (bc : Clay_Color)
    (hI : Clay_Ncurses_IntersectScissor (topClip st) (pxToCellX box.x) (pxToCellY box.y)
      (pxToCellX box.width) (pxToCellY box.height) = none) :
    renderRectangle colors st box bc = st := by
  simp only [renderRectangle, hI]

theorem renderRectangle_eq_some (colors : Int) (st : RenderState) (box : Clay_BoundingBox)
    (bc : Clay_Color) (dx dy dw dh : Int)
    (hI : Clay_Ncurses_IntersectScissor (topClip st) (pxToCellX box.x) (pxToCellY box.y)
      (pxToCellX box.width) (pxToCellY box.height) = some (dx, dy, dw, dh)) :
    renderRectangle colors st box bc =
      { st with
        screen := (paintFill
          ⟨32, (Clay_Ncurses_GetColorPair st.cache (Clay_Ncurses_GetColorId colors bc)
            (Clay_Ncurses_GetColorId colors bc)).1⟩
          (cellList dx dy dw dh) st.screen 0).1,
        cache := (Clay_Ncurses_GetColorPair st.cache (Clay_Ncurses_GetColorId colors bc)
          (Clay_Ncurses_GetColorId colors bc)).2,
        writes := st.writes + (paintFill
          ⟨32, (Clay_Ncurses_GetColorPair st.cache (Clay_Ncurses_GetColorId colors bc)
            (Clay_Ncurses_GetColorId colors bc)).1⟩
          (cellList dx dy dw dh) st.screen 0).2 } := by
  simp only [renderRectangle, hI]

theorem topClip_renderInit (screenWidth screenHeight : Int) (st : RenderState) :
    topClip (renderInit screenWidth screenHeight st) =
      ⟨0, 0, screenWidth * CLAY_NCURSES_CELL_WIDTH,
        screenHeight * CLAY_NCURSES_CELL_HEIGHT⟩ := by
  rfl

theorem renderRectangle_second_pass (colors : Int) (st1 st2 : RenderState)
    (box : Clay_BoundingBox) (bc : Clay_Color)
    (htop : topClip st2 = topClip st1)
    (hscreen : st2.screen = (renderRectangle colors st1 box bc).screen)
    (hcache : st2.cache = (renderRectangle colors st1 box bc).cache) :
    (renderRectangle colors st2 box bc).writes = st2.writes := by
  cases hI : Clay_Ncurses_IntersectScissor (topClip st1) (pxToCellX box.x) (pxToCellY box.y)
      (pxToCellX box.width) (pxToCellY box.height) with
  | none =>
    rw [renderRectangle_eq_none colors st2 box bc (by rw [htop]; exact hI)]
  | some r =>
    obtain ⟨dx, dy, dw, dh⟩ := r
    have h1 := renderRectangle_eq_some colors st1 box bc dx dy dw dh hI
    have h2 := renderRectangle_eq_some colors st2 box bc dx dy dw dh (by rw [htop]; exact hI)
    rw [h1] at hscreen hcache
    simp only at hscreen hcache
    rw [h2]
    show st2.writes + (paintFill
        ⟨32, (Clay_Ncurses_GetColorPair st2.cache (Clay_Ncurses_GetColorId colors bc)
          (Clay_Ncurses_GetColorId colors bc)).1⟩
        (cellList dx dy dw dh) st2.screen 0).2 = st2.writes
    rw [hcache, getColorPair_idem st1.cache (Clay_Ncurses_GetColorId colors bc)
      (Clay_Ncurses_GetColorId colors bc), hscreen]
    rw [paintFill_clean
      ⟨32, (Clay_Ncurses_GetColorPair st1.cache (Clay_Ncurses_GetColorId colors bc)
        (Clay_Ncurses_GetColorId colors bc)).1⟩
      (cellList dx dy dw dh) _ 0
      (fun rc hrc => paintFill_covers _ _ st1.screen 0 rc hrc)]
    rfl


theorem renderTextCmd_eq_none (colors : Int) (st : RenderState) (box : Clay_BoundingBox)
    (chars : List Nat) (tc : Clay_Color)
    (hI : Clay_Ncurses_IntersectScissor (topClip st) (pxToCellX box.x) (pxToCellY box.y)
      ((Clay_Ncurses_MeasureStringWidth chars : Int)) 1 = none) :
    renderTextCmd colors st box chars tc = st := by
  simp only [renderTextCmd, hI]

theorem renderTextCmd_eq_nodecode (colors : Int) (st : RenderState) (box : Clay_BoundingBox)
    (chars : List Nat) (tc : Clay_Color) (dx dy dw dh : Int)
    (hI : Clay_Ncurses_IntersectScissor (topClip st) (pxToCellX box.x) (pxToCellY box.y)
      ((Clay_Ncurses_MeasureStringWidth chars : Int)) 1 = some (dx, dy, dw, dh))
    (hm : mbstowcsModel chars = none) :
    renderTextCmd colors st box chars tc =
      { st with cache := (Clay_Ncurses_GetColorPair st.cache
          (Clay_Ncurses_GetColorId colors tc)
          ((Clay_Ncurses_PairContent st.cache (st.screen dy dx).pair).2)).2 } := by
  simp only [renderTextCmd, hI, hm]

theorem renderTextCmd_eq_noclip (colors : Int) (st : RenderState) (box : Clay_BoundingBox)
    (chars : List Nat) (tc : Clay_Color) (dx dy dw dh : Int) (wbuf : List Nat)
    (hI : Clay_Ncurses_IntersectScissor (topClip st) (pxToCellX box.x) (pxToCellY box.y)
      ((Clay_Ncurses_MeasureStringWidth chars : Int)) 1 = some (dx, dy, dw, dh))
    (hm : mbstowcsModel chars = some wbuf)
    (hclip : Clay_Ncurses_ClipToWindow wbuf (dx - pxToCellX box.x) dw = none) :
    renderTextCmd colors st box chars tc =
      { st with cache := (Clay_Ncurses_GetColorPair st.cache
          (Clay_Ncurses_GetColorId colors tc)
          ((Clay_Ncurses_PairContent st.cache (st.screen dy dx).pair).2)).2 } := by
  simp only [renderTextCmd, hI, hm, hclip]

theorem renderTextCmd_eq_draw (colors : Int) (st : RenderState) (box : Clay_BoundingBox)
    (chars : List Nat) (tc : Clay_Color) (dx dy dw dh : Int) (wbuf : List Nat)
    (sl : Nat × Nat)
    (hI : Clay_Ncurses_IntersectScissor (topClip st) (pxToCellX box.x) (pxToCellY box.y)
      ((Clay_Ncurses_MeasureStringWidth chars : Int)) 1 = some (dx, dy, dw, dh))
    (hm : mbstowcsModel chars = some wbuf)
    (hclip : Clay_Ncurses_ClipToWindow wbuf (dx - pxToCellX box.x) dw = some sl)
    (hlen : 0 < sl.2) :
    renderTextCmd colors st box chars tc =
      { st with
        screen := writeRun st.screen dy dx (textGlyphs wbuf sl.1 sl.2)
          (Clay_Ncurses_GetColorPair st.cache (Clay_Ncurses_GetColorId colors tc)
            ((Clay_Ncurses_PairContent st.cache (st.screen dy dx).pair).2)).1,
        cache := (Clay_Ncurses_GetColorPair st.cache
          (Clay_Ncurses_GetColorId colors tc)
          ((Clay_Ncurses_PairContent st.cache (st.screen dy dx).pair).2)).2,
        writes := st.writes + runCells (textGlyphs wbuf sl.1 sl.2) } := by
  simp only [renderTextCmd, hI, hm, hclip, if_pos hlen]

theorem renderTextCmd_eq_emptyrun (colors : Int) (st : RenderState) (box : Clay_BoundingBox)
    (chars : List Nat) (tc : Clay_Color) (dx dy dw dh : Int) (wbuf : List Nat)
    (sl : Nat × Nat)
    (hI : Clay_Ncurses_IntersectScissor (topClip st) (pxToCellX box.x) (pxToCellY box.y)
      ((Clay_Ncurses_MeasureStringWidth chars : Int)) 1 = some (dx, dy, dw, dh))
    (hm : mbstowcsModel chars = some wbuf)
    (hclip : Clay_Ncurses_ClipToWindow wbuf (dx - pxToCellX box.x) dw = some sl)
    (hlen : ¬ 0 < sl.2) :
    renderTextCmd colors st box chars tc =
      { st with cache := (Clay_Ncurses_GetColorPair st.cache
          (Clay_Ncurses_GetColorId colors tc)
          ((Clay_Ncurses_PairContent st.cache (st.screen dy dx).pair).2)).2 } := by
  simp only [renderTextCmd, hI, hm, hclip, if_neg hlen]

/-- The number of cell writes one TEXT command performs, as a function of
the clip top and the command's own data alone: the screen and the pair
cache never influence it, because the handler's read-back check always
reports a short read (see `renderTextCmd`) and so the visible run is
written unconditionally. -/
def textPassWrites (clip : Clay_BoundingBox) (box : Clay_BoundingBox)
    (chars : List Nat) : Nat :=
  match Clay_Ncurses_IntersectScissor clip (pxToCellX box.x) (pxToCellY box.y)
      ((Clay_Ncurses_MeasureStringWidth chars : Int)) 1 with
  | none => 0
  | some (dx, _dy, dw, _dh) =>
    match mbstowcsModel chars with
    | none => 0
    | some wbuf =>
      match Clay_Ncurses_ClipToWindow wbuf (dx - pxToCellX box.x) dw with
      | none => 0
      | some sl => if 0 < sl.2 then runCells (textGlyphs wbuf sl.1 sl.2) else 0

theorem renderTextCmd_writes (colors : Int) (st : RenderState) (box : Clay_BoundingBox)
    (chars : List Nat) (tc : Clay_Color) :
    (renderTextCmd colors st box chars tc).writes =
      st.writes + textPassWrites (topClip st) box chars := by
  cases hI : Clay_Ncurses_IntersectScissor (topClip st) (pxToCellX box.x) (pxToCellY box.y)
      ((Clay_Ncurses_MeasureStringWidth chars : Int)) 1 with
  | none =>
    rw [renderTextCmd_eq_none colors st box chars tc hI]
    simp only [textPassWrites, hI]
    rfl
  | some r =>
    obtain ⟨dx, dy, dw, dh⟩ := r
    cases hm : mbstowcsModel chars with
    | none =>
      rw [renderTextCmd_eq_nodecode colors st box chars tc dx dy dw dh hI hm]
      simp only [textPassWrites, hI, hm]
      rfl
    | some wbuf =>
      cases hclip : Clay_Ncurses_ClipToWindow wbuf (dx - pxToCellX box.x) dw with
      | none =>
        rw [renderTextCmd_eq_noclip colors st box chars tc dx dy dw dh wbuf hI hm hclip]
        simp only [textPassWrites, hI, hm, hclip]
        rfl
      | some sl =>
        by_cases hlen : 0 < sl.2
        · rw [renderTextCmd_eq_draw colors st box chars tc dx dy dw dh wbuf sl
            hI hm hclip hlen]
          simp only [textPassWrites, hI, hm, hclip, if_pos hlen]
        · rw [renderTextCmd_eq_emptyrun colors st box chars tc dx dy dw dh wbuf sl
            hI hm hclip hlen]
          simp only [textPassWrites, hI, hm, hclip, if_neg hlen]
          rfl

/-- An all-blank terminal screen (spaces in the default pair), for the
concrete render scenarios. -/
def blankTerminalScreen : TerminalScreen := fun _ _ => ⟨32, 0⟩

/-- A fresh renderer state: blank screen, empty pair cache, zeroed scissor
stack. -/
def initialRenderState : RenderState :=
  ⟨blankTerminalScreen, [], ⟨fun _ => ⟨0, 0, 0, 0⟩, 0⟩, 0⟩

/-- A border command covering exactly one terminal cell (an 8x16 pixel
box at the origin), square corners. -/
def oneCellBorderCmd : Clay_RenderCommand :=
  Clay_RenderCommand.border ⟨0, 0, 8, 16⟩ ⟨255, 0, 0, 255⟩ ⟨false, false, false, false⟩

/-- A text command drawing the two ASCII glyphs h, i at cell (1, 1)
(pixel box 8,16 of size 40x16). -/
def smallTextCmd : Clay_RenderCommand :=
  Clay_RenderCommand.text ⟨8, 16, 40, 16⟩ [104, 105] ⟨255, 255, 255, 255⟩

/-- C1 counterexample: rendering the identical one-command list twice in
succession on a blank 10x5 screen performs nonzero cell writes on the
second pass, both for a Border command and for a Text command.  The four
border corner glyphs are written by `mvprintw` unconditionally on every
pass (lines 342-357 have no read-back comparison), and the text run is
rewritten on every pass because `mvin_wchnstr` returns OK (0), which the
short-read check at line 238 always classifies as dirty, leaving the
glyph comparison loop dead. -/
theorem clay_c1_counterexample :
    ((Clay_Ncurses_Render 256 10 5
        (Clay_Ncurses_Render 256 10 5 initialRenderState [oneCellBorderCmd])
        [oneCellBorderCmd]).writes = 4
      ∧ (Clay_Ncurses_Render 256 10 5
          (Clay_Ncurses_Render 256 10 5 initialRenderState [oneCellBorderCmd])
          [oneCellBorderCmd]).writes ≠ 0)
    ∧ ((Clay_Ncurses_Render 256 10 5
        (Clay_Ncurses_Render 256 10 5 initialRenderState [smallTextCmd])
        [smallTextCmd]).writes = 2
      ∧ (Clay_Ncurses_Render 256 10 5
          (Clay_Ncurses_Render 256 10 5 initialRenderState [smallTextCmd])
          [smallTextCmd]).writes ≠ 0) := by
  have htext : (Clay_Ncurses_Render 256 10 5
      (Clay_Ncurses_Render 256 10 5 initialRenderState [smallTextCmd])
      [smallTextCmd]).writes = 2 := by
    show (renderTextCmd 256
        (renderInit 10 5 (Clay_Ncurses_Render 256 10 5 initialRenderState [smallTextCmd]))
        ⟨8, 16, 40, 16⟩ [104, 105] ⟨255, 255, 255, 255⟩).writes = 2
    rw [renderTextCmd_writes]
    have hmeas : Clay_Ncurses_MeasureStringWidth [104, 105] = 2 := by
      simp [Clay_Ncurses_MeasureStringWidth, utf8DecodeFirst, utf8Cont, glyphAdvance, wcwidth,
        wcwidthCombining, wcwidthWide]
    have hdec : mbstowcsModel [104, 105] = some [104, 105] := by
      simp [mbstowcsModel, utf8DecodeFirst, utf8Cont]
    show 0 + textPassWrites ⟨0, 0, 80, 80⟩ ⟨8, 16, 40, 16⟩ [104, 105] = 2
    simp only [textPassWrites, hmeas, hdec]
    decide
  refine ⟨⟨by decide, by decide⟩, htext, ?_⟩
  rw [htext]
  decide

/-- C1 (amended): the dirty-cell read-before-write diff holds per cell
for Rectangle fills, so rendering a single Rectangle command twice with
no external change to the terminal performs zero cell writes on the
second pass.  Text has no effective dirty gate: the read-back's OK
return value is treated as a short read, so the visible run is rewritten
on every pass, and the second pass of a single Text command performs
exactly the same cell writes as the first.  Border line glyphs are
compared by glyph alone before writing, and border corner glyphs are
written unconditionally on every pass (the counterexample exhibits both
nonzero second passes). -/
theorem clay_c1_single_command_dirty_diff (colors screenWidth screenHeight : Int)
    (st : RenderState) (box : Clay_BoundingBox) (bc tc : Clay_Color) (chars : List Nat) :
    (Clay_Ncurses_Render colors screenWidth screenHeight
        (Clay_Ncurses_Render colors screenWidth screenHeight st
          [Clay_RenderCommand.rectangle box bc])
        [Clay_RenderCommand.rectangle box bc]).writes = 0
    ∧ (Clay_Ncurses_Render colors screenWidth screenHeight
          (Clay_Ncurses_Render colors screenWidth screenHeight st
            [Clay_RenderCommand.text box chars tc])
          [Clay_RenderCommand.text box chars tc]).writes =
        (Clay_Ncurses_Render colors screenWidth screenHeight st
          [Clay_RenderCommand.text box chars tc]).writes := by
  constructor
  · show (renderRectangle colors
        (renderInit screenWidth screenHeight
          (Clay_Ncurses_Render colors screenWidth screenHeight st
            [Clay_RenderCommand.rectangle box bc])) box bc).writes = 0
    exact renderRectangle_second_pass colors
      (renderInit screenWidth screenHeight st)
      (renderInit screenWidth screenHeight
        (Clay_Ncurses_Render colors screenWidth screenHeight st
          [Clay_RenderCommand.rectangle box bc]))
      box bc rfl rfl rfl
  · show (renderTextCmd colors
        (renderInit screenWidth screenHeight
          (Clay_Ncurses_Render colors screenWidth screenHeight st
            [Clay_RenderCommand.text box chars tc])) box chars tc).writes =
      (renderTextCmd colors (renderInit screenWidth screenHeight st) box chars tc).writes
    rw [renderTextCmd_writes, renderTextCmd_writes]
    rfl
